import Mathlib

/-!
Verification of the chunked-embedding storage and similarity-search pipeline
of the MiPal repository (the `google_test` package), shallowly embedded in
Lean.  Embedding vectors of floating-point numbers are modelled as `List ℚ`;
the Neo4j graph content relevant to the claims (document nodes, embedding
chunk nodes, typed relationships) is modelled explicitly as Lean data, and
each Cypher query's row semantics is translated into list operations.
-/

namespace MiPal

/-- Relationship types used by the `google_test` package when linking
`User`, `Document` and `DocumentEmbedding` nodes. -/
inductive RelType where
  | owns
  | created
  | lastModified
  | hasSummaryEmbedding
  | hasContentEmbedding
  | hasEmbedding
  deriving DecidableEq, Repr

/-- Chunk encoder.  Mirrors the Python list comprehension in
`DocumentGraphStore._store_embedding_chunks` (document_graph_store.py:94):
`chunks = [embedding[i:i + chunk_size] for i in range(0, len(embedding), chunk_size)]`.
Each Python slice `embedding[i:i+c]` is `take c` after `drop i`, so the
comprehension is equivalent to repeatedly taking `c` elements and recursing
on the rest.  For `c = 0` Python's `range` raises `ValueError`; every call
site uses `chunk_size = 500`, and this model returns `[]` in that
unreachable case. -/
def chunkList (c : Nat) (v : List ℚ) : List (List ℚ) :=
  if h : c = 0 ∨ v = [] then [] else v.take c :: chunkList c (v.drop c)
termination_by v.length
decreasing_by
  have hc : 0 < c := Nat.pos_of_ne_zero (fun hh => h (Or.inl hh))
  have hv : v ≠ [] := fun hh => h (Or.inr hh)
  simp only [List.length_drop]
  exact Nat.sub_lt (List.length_pos.mpr hv) hc

theorem chunkList_nil (c : Nat) : chunkList c [] = [] := by
  rw [chunkList]; simp

theorem chunkList_cons (c : Nat) (hc : c ≠ 0) (v : List ℚ) (hv : v ≠ []) :
    chunkList c v = v.take c :: chunkList c (v.drop c) := by
  rw [chunkList]; simp [hc, hv]

/-- Every chunk list splits as `init ++ [last]` with all of `init` of
length `c` and `last` carrying the remainder. -/
theorem chunkList_concat_aux (c : Nat) (hc : 0 < c) (n : Nat) :
    ∀ v : List ℚ, v.length ≤ n → v ≠ [] →
      ∃ init last, chunkList c v = init ++ [last] ∧
        (∀ l ∈ init, l.length = c) ∧
        last.length = (if v.length % c = 0 then c else v.length % c) := by
  induction n with
  | zero =>
    intro v hl hv
    cases v with
    | nil => exact absurd rfl hv
    | cons a t => simp at hl
  | succ n ih =>
    intro v hl hv
    rw [chunkList_cons c hc.ne' v hv]
    by_cases hle : v.length ≤ c
    · have hdrop : v.drop c = [] := by
        rw [List.drop_eq_nil_iff]; exact hle
      rw [hdrop, chunkList_nil]
      refine ⟨[], v.take c, by simp, by simp, ?_⟩
      have htake : v.take c = v := List.take_of_length_le hle
      rw [htake]
      rcases Nat.lt_or_ge v.length c with hlt | hge
      · have hmod : v.length % c = v.length := Nat.mod_eq_of_lt hlt
        have hpos : v.length ≠ 0 := by
          simpa [List.length_eq_zero] using hv
        rw [hmod, if_neg hpos]
      · have heq : v.length = c := le_antisymm hle hge
        rw [heq, Nat.mod_self, if_pos rfl]
    · push_neg at hle
      have hdlen : (v.drop c).length = v.length - c := List.length_drop c v
      have hdropne : v.drop c ≠ [] := by
        intro hh
        rw [hh] at hdlen
        simp only [List.length_nil] at hdlen
        omega
      have hdle : (v.drop c).length ≤ n := by
        rw [hdlen]; omega
      obtain ⟨init, last, heq, hinit, hlast⟩ := ih (v.drop c) hdle hdropne
      refine ⟨v.take c :: init, last, by rw [heq]; rfl, ?_, ?_⟩
      · intro l hl'
        rcases List.mem_cons.mp hl' with h1 | h1
        · rw [h1, List.length_take]
          exact min_eq_left hle.le
        · exact hinit l h1
      · have hmodeq : (v.drop c).length % c = v.length % c := by
          rw [hdlen]
          conv_rhs => rw [← Nat.sub_add_cancel hle.le]
          rw [Nat.add_mod_right]
        rw [hlast, hmodeq]

/-- The number of chunks is `ceil (length / c)`, written `(L + c - 1) / c`. -/
theorem chunkList_length (c : Nat) (hc : 0 < c) (n : Nat) :
    ∀ v : List ℚ, v.length ≤ n →
      (chunkList c v).length = (v.length + c - 1) / c := by
  induction n with
  | zero =>
    intro v hl
    have hv : v = [] := List.length_eq_zero.mp (Nat.le_zero.mp hl)
    subst hv
    rw [chunkList_nil]
    simp only [List.length_nil, Nat.zero_add]
    exact (Nat.div_eq_of_lt (by omega)).symm
  | succ n ih =>
    intro v hl
    by_cases hv : v = []
    · subst hv
      rw [chunkList_nil]
      simp only [List.length_nil, Nat.zero_add]
      exact (Nat.div_eq_of_lt (by omega)).symm
    · rw [chunkList_cons c hc.ne' v hv]
      have hvpos : 0 < v.length := List.length_pos.mpr hv
      by_cases hle : v.length ≤ c
      · have hdrop : v.drop c = [] := by
          rw [List.drop_eq_nil_iff]; exact hle
        rw [hdrop, chunkList_nil]
        simp only [List.length_cons, List.length_nil]
        symm
        apply Nat.div_eq_of_lt_le
        · omega
        · omega
      · push_neg at hle
        have hdle : (v.drop c).length ≤ n := by
          rw [List.length_drop]; omega
        rw [List.length_cons, ih (v.drop c) hdle, List.length_drop]
        have h1 : v.length - c + c - 1 = v.length - 1 := by omega
        have h2 : v.length + c - 1 = (v.length - 1) + c := by omega
        rw [h1, h2, Nat.add_div_right _ hc]

/-- Concatenating the chunks reproduces the input vector. -/
theorem chunkList_join (c : Nat) (hc : 0 < c) (n : Nat) :
    ∀ v : List ℚ, v.length ≤ n → (chunkList c v).flatten = v := by
  induction n with
  | zero =>
    intro v hl
    have hv : v = [] := List.length_eq_zero.mp (Nat.le_zero.mp hl)
    subst hv
    rw [chunkList_nil, List.flatten_nil]
  | succ n ih =>
    intro v hl
    by_cases hv : v = []
    · subst hv; rw [chunkList_nil, List.flatten_nil]
    · rw [chunkList_cons c hc.ne' v hv, List.flatten_cons]
      have hdle : (v.drop c).length ≤ n := by
        have hvpos : 0 < v.length := List.length_pos.mpr hv
        rw [List.length_drop]; omega
      rw [ih (v.drop c) hdle, List.take_append_drop]

theorem getD_mem_of_lt {α : Type} (l : List α) (i : Nat) (d : α)
    (h : i < l.length) : l.getD i d ∈ l := by
  rw [List.getD_eq_getElem l d h]
  exact List.getElem_mem h

/-- C1.  For every embedding vector of positive length and positive chunk
size, the chunk encoder produces exactly `ceil (L / C)` chunks; every chunk
other than the last has exactly `C` elements; the last chunk has `L mod C`
elements (`C` when `C` divides `L`); and the chunks concatenate, in index
order, back to the input vector. -/
theorem chunk_encoder_correct (v : List ℚ) (c : Nat)
    (hv : 0 < v.length) (hc : 0 < c) :
    (chunkList c v).length = (v.length + c - 1) / c ∧
    (∀ i, i + 1 < (chunkList c v).length →
      ((chunkList c v).getD i []).length = c) ∧
    ((chunkList c v).getLast?).map List.length =
      some (if v.length % c = 0 then c else v.length % c) ∧
    (chunkList c v).flatten = v := by
  have hvne : v ≠ [] := List.length_pos.mp hv
  obtain ⟨init, last, heq, hinit, hlast⟩ :=
    chunkList_concat_aux c hc v.length v le_rfl hvne
  refine ⟨chunkList_length c hc v.length v le_rfl, ?_, ?_,
    chunkList_join c hc v.length v le_rfl⟩
  · intro i hi
    rw [heq] at hi ⊢
    rw [List.length_append, List.length_singleton] at hi
    have hilt : i < init.length := by omega
    rw [List.getD_append _ _ _ _ hilt]
    exact hinit _ (getD_mem_of_lt init i [] hilt)
  · rw [heq, List.getLast?_concat, Option.map_some', hlast]

/-- C1 witness: the scenario from the spec scaled down, a length-5 vector
with chunk size 2 giving chunks of lengths 2, 2, 1. -/
theorem chunk_encoder_correct_witness :
    (chunkList 2 [1, 2, 3, 4, 5]).length = (5 + 2 - 1) / 2 ∧
    (∀ i, i + 1 < (chunkList 2 [1, 2, 3, 4, 5]).length →
      ((chunkList 2 [1, 2, 3, 4, 5]).getD i []).length = 2) ∧
    ((chunkList 2 [1, 2, 3, 4, 5]).getLast?).map List.length =
      some (if ([1, 2, 3, 4, 5] : List ℚ).length % 2 = 0 then 2
            else ([1, 2, 3, 4, 5] : List ℚ).length % 2) ∧
    (chunkList 2 [1, 2, 3, 4, 5]).flatten = [1, 2, 3, 4, 5] := by
  have h := chunk_encoder_correct [1, 2, 3, 4, 5] 2 (by simp) (by simp)
  simpa using h

/-- One `DocumentEmbedding` node together with the relationship linking its
parent `Document` to it.  `_store_embedding_chunks` creates one such node
per chunk, carrying `chunk_index`, `total_chunks` and the vector slice
(document_graph_store.py:84-90). -/
structure EmbRecord where
  docId : String
  edge : RelType
  chunk_index : Nat
  total_chunks : Nat
  embedding_chunk : List ℚ
  deriving DecidableEq, Repr

/-- The `DocumentEmbedding` content of the graph, in creation order. -/
abbrev EmbStore := List EmbRecord

/-- The records the `UNWIND range(0, size(chunks)-1) ... CREATE` block of
`_store_embedding_chunks` creates: one node per chunk with `chunk_index = i`
and `total_chunks = size(chunks)`. -/
def mkChunkRecords (docId : String) (edge : RelType) (total : Nat) :
    Nat → List (List ℚ) → List EmbRecord
  | _, [] => []
  | i, ch :: rest =>
      ⟨docId, edge, i, total, ch⟩ :: mkChunkRecords docId edge total (i + 1) rest

/-- `DocumentGraphStore._store_embedding_chunks`
(document_graph_store.py:78-96): splits the embedding into `chunk_size`
slices and creates one `DocumentEmbedding` node per slice, linked to the
document by a `HAS_SUMMARY_EMBEDDING` relationship.  The Cypher contains no
`DELETE`/`DETACH` clause: it only creates nodes and relationships. -/
def storeEmbeddingChunks (st : EmbStore) (docId : String)
    (embedding : List ℚ) (chunk_size : Nat) : EmbStore :=
  st ++ mkChunkRecords docId RelType.hasSummaryEmbedding
    (chunkList chunk_size embedding).length 0 (chunkList chunk_size embedding)

/-- The chunk vectors attached to a document through a given relationship
type, in creation order — the rows a `MATCH (d)-[:edge]->(e)` traversal
returns. -/
def readChunksVia (st : EmbStore) (docId : String) (edge : RelType) :
    List (List ℚ) :=
  (st.filter (fun r => r.docId = docId ∧ r.edge = edge)).map
    (fun r => r.embedding_chunk)

/-- Per-document chunk count reported by
`EmbeddingVerifier.verify_document_embeddings` (verify_embeddings.py:33-53)
and by `VectorIndexSetup.verify_embeddings` (setup_vector_index.py:71-80):
both traverse `HAS_EMBEDDING` relationships. -/
def verifyChunkCount (st : EmbStore) (docId : String) : Nat :=
  (readChunksVia st docId RelType.hasEmbedding).length

theorem readChunksVia_nil (d : String) (e : RelType) :
    readChunksVia [] d e = [] := rfl

theorem readChunksVia_append (st st' : EmbStore) (d : String) (e : RelType) :
    readChunksVia (st ++ st') d e =
      readChunksVia st d e ++ readChunksVia st' d e := by
  simp [readChunksVia, List.filter_append]

theorem mem_mkChunkRecords (d : String) (e : RelType) (total : Nat) :
    ∀ (chunks : List (List ℚ)) (i : Nat) (r : EmbRecord),
      r ∈ mkChunkRecords d e total i chunks → r.docId = d ∧ r.edge = e := by
  intro chunks
  induction chunks with
  | nil => intro i r hr; simp [mkChunkRecords] at hr
  | cons ch rest ih =>
    intro i r hr
    simp only [mkChunkRecords, List.mem_cons] at hr
    rcases hr with h | h
    · subst h; exact ⟨rfl, rfl⟩
    · exact ih (i + 1) r h

theorem readChunksVia_mk (d : String) (e : RelType) (total : Nat) :
    ∀ (chunks : List (List ℚ)) (i : Nat),
      readChunksVia (mkChunkRecords d e total i chunks) d e = chunks := by
  intro chunks
  induction chunks with
  | nil => intro i; rfl
  | cons ch rest ih =>
    intro i
    have h := ih (i + 1)
    simp only [readChunksVia, mkChunkRecords, List.filter_cons] at h ⊢
    rw [if_pos (by simp), List.map_cons, h]

theorem readChunksVia_mk_other_edge (d d' : String) (e e' : RelType)
    (total : Nat) (hne : e ≠ e') :
    ∀ (chunks : List (List ℚ)) (i : Nat),
      readChunksVia (mkChunkRecords d e total i chunks) d' e' = [] := by
  intro chunks
  induction chunks with
  | nil => intro i; rfl
  | cons ch rest ih =>
    intro i
    have h := ih (i + 1)
    simp only [readChunksVia, mkChunkRecords, List.filter_cons] at h ⊢
    rw [if_neg (by simp [hne]), h]

/-- C2 counterexample: writing chunks for `d1` twice leaves the first
call's chunk nodes in place — the store never deletes, so the chunk set
after the second call is not the second chunk set alone. -/
theorem write_chunks_no_delete_cex :
    readChunksVia
        (storeEmbeddingChunks (storeEmbeddingChunks [] "d1" [1, 2, 3] 2)
          "d1" [4, 5] 2) "d1" RelType.hasSummaryEmbedding =
      [[1, 2], [3], [4, 5]] ∧
    readChunksVia
        (storeEmbeddingChunks (storeEmbeddingChunks [] "d1" [1, 2, 3] 2)
          "d1" [4, 5] 2) "d1" RelType.hasSummaryEmbedding ≠
      chunkList 2 [4, 5] := by
  have h1 : chunkList 2 [1, 2, 3] = [[1, 2], [3]] := by
    rw [chunkList_cons 2 (by omega) _ (by simp)]
    norm_num
    rw [chunkList_cons 2 (by omega) _ (by simp)]
    norm_num [chunkList_nil]
  have h2 : chunkList 2 [4, 5] = [[4, 5]] := by
    rw [chunkList_cons 2 (by omega) _ (by simp)]
    norm_num [chunkList_nil]
  constructor
  · simp [storeEmbeddingChunks, readChunksVia_append, readChunksVia_mk, h1, h2]
  · simp [storeEmbeddingChunks, readChunksVia_append, readChunksVia_mk, h1, h2]

/-- C2 amended: `_store_embedding_chunks` performs no deletion, so two
successive chunk writes for the same document accumulate — after the second
call the document's chunk set is the previous chunks followed by the first
call's chunks followed by the second call's chunks. -/
theorem write_chunks_accumulates (st : EmbStore) (d : String)
    (v₁ v₂ : List ℚ) (c : Nat) :
    readChunksVia
        (storeEmbeddingChunks (storeEmbeddingChunks st d v₁ c) d v₂ c)
        d RelType.hasSummaryEmbedding =
      readChunksVia st d RelType.hasSummaryEmbedding
        ++ chunkList c v₁ ++ chunkList c v₂ := by
  simp [storeEmbeddingChunks, readChunksVia_append, readChunksVia_mk]

/-- C3: the store writes chunk nodes under `HAS_SUMMARY_EMBEDDING`
(document_graph_store.py:90) but every chunk-lookup/verification query
traverses `HAS_EMBEDDING` (verify_embeddings.py:36, setup_vector_index.py:74),
so reading back a freshly written chunk set reports 0 chunks where 3 were
written: the round-trip claim fails on the code. -/
theorem chunk_roundtrip_edge_mismatch :
    (readChunksVia (storeEmbeddingChunks [] "d1" [1, 2, 3, 4, 5] 2)
        "d1" RelType.hasSummaryEmbedding).length = 3 ∧
    verifyChunkCount (storeEmbeddingChunks [] "d1" [1, 2, 3, 4, 5] 2) "d1" = 0 ∧
    (0 : Nat) ≠ 3 := by
  have h1 : chunkList 2 [1, 2, 3, 4, 5] = [[1, 2], [3, 4], [5]] := by
    rw [chunkList_cons 2 (by omega) _ (by simp)]
    norm_num
    rw [chunkList_cons 2 (by omega) _ (by simp)]
    norm_num
    rw [chunkList_cons 2 (by omega) _ (by simp)]
    norm_num [chunkList_nil]
  refine ⟨?_, ?_, by omega⟩
  · simp [storeEmbeddingChunks, readChunksVia_append, readChunksVia_mk, h1]
  · have h0 := readChunksVia_mk_other_edge "d1" "d1"
      RelType.hasSummaryEmbedding RelType.hasEmbedding
      (chunkList 2 [1, 2, 3, 4, 5]).length (by decide)
      (chunkList 2 [1, 2, 3, 4, 5]) 0
    simp only [verifyChunkCount, storeEmbeddingChunks, readChunksVia_append,
      readChunksVia_nil, h0, List.append_nil, List.nil_append, List.length_nil]

/-- C9 counterexample: on the empty vector the chunk encoder produces zero
chunks and the store call creates no chunk nodes and reports no failure;
no `InvalidVectorError` is raised (none exists in the code). -/
theorem empty_vector_no_error_cex :
    chunkList 500 ([] : List ℚ) = [] ∧
    storeEmbeddingChunks [] "d1" [] 500 = [] := by
  constructor
  · exact chunkList_nil 500
  · simp [storeEmbeddingChunks, chunkList_nil, mkChunkRecords]

/-- C9 amended: for the empty input vector the chunk encoder produces no
chunks and `_store_embedding_chunks` silently stores nothing, leaving the
graph unchanged; it raises no error. -/
theorem empty_vector_silently_stores_nothing (st : EmbStore) (d : String)
    (c : Nat) : storeEmbeddingChunks st d [] c = st := by
  simp [storeEmbeddingChunks, chunkList_nil, mkChunkRecords]

/-- An embedding-chunk row as the similarity queries see it: parent
document, linking relationship type, `chunk_index`, and the stored
vector slice. -/
structure SChunk where
  docId : String
  edge : RelType
  chunk_index : Nat
  chunk : List ℚ
  deriving DecidableEq, Repr

/-- The graph slice the similarity queries traverse: the document ids,
the `OWNS` edges (`user_id`, document id) and the `DocumentEmbedding`
rows. -/
structure SearchGraph where
  docs : List String
  owns : List (String × String)
  chunks : List SChunk
  deriving DecidableEq, Repr

/-- Documents matched by `MATCH (u:User {user_id: $user_id})-[:OWNS]->(d)`. -/
def ownedDocs (g : SearchGraph) (uid : String) : List String :=
  (g.owns.filter (fun p => p.1 = uid)).map (fun p => p.2)

/-- Rows of `MATCH (d)-[:edge]->(e:DocumentEmbedding)` for a fixed
document. -/
def chunksOf (g : SearchGraph) (d : String) (edge : RelType) : List (List ℚ) :=
  (g.chunks.filter (fun c => c.docId = d ∧ c.edge = edge)).map
    (fun c => c.chunk)

/-- Rows of the same traversal further filtered by
`WHERE e.chunk_index = $chunk_index`. -/
def chunksOfIdx (g : SearchGraph) (d : String) (edge : RelType) (i : Nat) :
    List (List ℚ) :=
  (g.chunks.filter (fun c => c.docId = d ∧ c.edge = edge ∧ c.chunk_index = i)).map
    (fun c => c.chunk)

/-- Insertion step of `ORDER BY similarity_score DESC`. -/
def insertDesc (x : String × ℚ) : List (String × ℚ) → List (String × ℚ)
  | [] => [x]
  | y :: ys => if y.2 ≤ x.2 then x :: y :: ys else y :: insertDesc x ys

/-- Sorting by score descending, as `ORDER BY similarity_score DESC`. -/
def sortDesc : List (String × ℚ) → List (String × ℚ)
  | [] => []
  | x :: xs => insertDesc x (sortDesc xs)

theorem mem_insertDesc (x a : String × ℚ) (l : List (String × ℚ)) :
    a ∈ insertDesc x l ↔ a = x ∨ a ∈ l := by
  induction l with
  | nil => simp [insertDesc]
  | cons y ys ih =>
    simp only [insertDesc]
    by_cases h : y.2 ≤ x.2
    · simp [h]
    · simp only [if_neg h, List.mem_cons, ih]
      tauto

theorem mem_sortDesc (a : String × ℚ) (l : List (String × ℚ)) :
    a ∈ sortDesc l ↔ a ∈ l := by
  induction l with
  | nil => simp [sortDesc]
  | cons x xs ih => simp [sortDesc, mem_insertDesc, ih]

/-- Per-document aggregation `max(chunk_score)` over a nonempty row group,
seeded with the first row's score. -/
def maxScore (sim : List ℚ → List ℚ → ℚ) (qc : List ℚ) (c0 : List ℚ)
    (cs : List (List ℚ)) : ℚ :=
  cs.foldl (fun m ch => max m (sim ch qc)) (sim c0 qc)

/-- Per-document aggregation `avg(chunk_score)` over a row group. -/
def avgScore (sim : List ℚ → List ℚ → ℚ) (qc : List ℚ)
    (cands : List (List ℚ)) : ℚ :=
  ((cands.map (fun ch => sim ch qc)).sum) / cands.length

/-- `ContentRetriever.search_content` (content_retriever.py:41-119).
The cosine value is computed by the database's GDS plugin, an external
collaborator, so it is the parameter `sim`; the Cypher passes
`(e.embedding_chunk, $query_chunk)` to it.  The Python chunks the query
embedding at size 500 and sends only `query_chunks[0]`; an empty query
embedding makes `query_chunks[0]` raise `IndexError`, which the blanket
`except` turns into `[]`.  The query keeps only `HAS_CONTENT_EMBEDDING`
rows with `size(e.embedding_chunk) = size($query_chunk)`, aggregates
`max(chunk_score)` per document, keeps documents with
`similarity_score > $threshold`, orders by score descending and truncates
at `$limit`. -/
def searchContent (sim : List ℚ → List ℚ → ℚ) (g : SearchGraph)
    (uid : String) (queryEmb : List ℚ) (threshold : ℚ) (limit : Nat) :
    List (String × ℚ) :=
  match (chunkList 500 queryEmb).head? with
  | none => []
  | some qc =>
    (sortDesc ((ownedDocs g uid).filterMap (fun d =>
      match (chunksOf g d RelType.hasContentEmbedding).filter
          (fun ch => ch.length = qc.length) with
      | [] => none
      | c0 :: cs =>
        if threshold < maxScore sim qc c0 cs then
          some (d, maxScore sim qc c0 cs)
        else none))).take limit

/-- `DocumentRetriever.search_documents` (document_retriever.py:41-115):
same shape, but over `HAS_EMBEDDING` rows restricted to
`e.chunk_index = 0` (no size guard), aggregated with `avg(chunk_score)`
and filtered by `similarity_score > $threshold`. -/
def searchDocuments (sim : List ℚ → List ℚ → ℚ) (g : SearchGraph)
    (uid : String) (queryEmb : List ℚ) (threshold : ℚ) (limit : Nat) :
    List (String × ℚ) :=
  match (chunkList 500 queryEmb).head? with
  | none => []
  | some qc =>
    (sortDesc ((ownedDocs g uid).filterMap (fun d =>
      match chunksOfIdx g d RelType.hasEmbedding 0 with
      | [] => none
      | c0 :: cs =>
        if threshold < avgScore sim qc (c0 :: cs) then
          some (d, avgScore sim qc (c0 :: cs))
        else none))).take limit

/-- `gds.similarity.cosine` is defined only for vectors of equal length
and raises a database error otherwise; the similarity value itself is
external, so it is the parameter `sim`. -/
def gdsCosineE (sim : List ℚ → List ℚ → ℚ) (a b : List ℚ) :
    Except String ℚ :=
  if a.length = b.length then .ok (sim a b)
  else .error "vectors must have equal length"

/-- Error-propagating map, the evaluation order of a Cypher query that
aborts on the first failing row. -/
def mapExcept {α β : Type} (f : α → Except String β) :
    List α → Except String (List β)
  | [] => .ok []
  | x :: xs =>
    match f x with
    | .error e => .error e
    | .ok y =>
      match mapExcept f xs with
      | .error e => .error e
      | .ok ys => .ok (y :: ys)

/-- One document row group of
`DocumentGraphStore.search_similar_documents`
(document_graph_store.py:255-264): every `HAS_EMBEDDING` chunk row of the
document is scored with `gds.similarity.cosine(e.embedding_chunk,
$query_embedding)` — against the FULL query embedding, with no size
guard — then averaged and filtered by `avg_score > 0.7`.  Documents with
no chunk row produce no row.  A length mismatch inside the cosine call
aborts the whole query. -/
def scoreDocSimilar (sim : List ℚ → List ℚ → ℚ) (g : SearchGraph)
    (queryEmb : List ℚ) (d : String) :
    Except String (Option (String × ℚ)) :=
  match chunksOf g d RelType.hasEmbedding with
  | [] => .ok none
  | c0 :: cs =>
    match mapExcept (fun ch => gdsCosineE sim ch queryEmb) (c0 :: cs) with
    | .error e => .error e
    | .ok ss =>
      .ok (if (7 : ℚ) / 10 < ss.sum / ss.length then
            some (d, ss.sum / ss.length)
           else none)

/-- `DocumentGraphStore.search_similar_documents`
(document_graph_store.py:249-284): runs the chunk-scoring query and, on
any exception, logs and returns `[]` (the `except` on line 282). -/
def searchSimilarDocuments (sim : List ℚ → List ℚ → ℚ) (g : SearchGraph)
    (uid : String) (queryEmb : List ℚ) (limit : Nat) : List (String × ℚ) :=
  match mapExcept (scoreDocSimilar sim g queryEmb) (ownedDocs g uid) with
  | .ok opts => (sortDesc (opts.filterMap id)).take limit
  | .error _ => []

/-- The argument pairs `search_similar_documents` passes to
`gds.similarity.cosine`: one per (owned document, `HAS_EMBEDDING` chunk)
row, pairing the stored chunk with the full query embedding
(document_graph_store.py:257). -/
def comparedPairsSimilar (g : SearchGraph) (uid : String)
    (queryEmb : List ℚ) : List (List ℚ × List ℚ) :=
  ((ownedDocs g uid).map (fun d =>
    (chunksOf g d RelType.hasEmbedding).map (fun c => (c, queryEmb)))).flatten

/-- A concrete similarity function used by witnesses and counterexamples:
the dot product (any concrete stand-in for the external cosine value works,
since the queries treat the score as an opaque number). -/
def dotp : List ℚ → List ℚ → ℚ
  | x :: xs, y :: ys => x * y + dotp xs ys
  | _, _ => 0

theorem dotp_replicate_one : ∀ n : Nat,
    dotp (List.replicate n 1) (List.replicate n 1) = n := by
  intro n
  induction n with
  | zero => rfl
  | succ n ih =>
    simp only [List.replicate_succ, dotp, ih]
    push_cast
    ring

theorem chunkList_singleton (c : Nat) (hc : c ≠ 0) (x : ℚ) :
    chunkList c [x] = [[x]] := by
  rw [chunkList_cons c hc _ (by simp)]
  have h1 : List.take c [x] = [x] := List.take_of_length_le (by simp; omega)
  have h2 : List.drop c [x] = [] := by
    rw [List.drop_eq_nil_iff]; simp; omega
  rw [h1, h2, chunkList_nil]

/-- C5.  Every document returned by `search_content` or `search_documents`
carries an aggregated similarity score strictly greater than the supplied
threshold; a document whose aggregated score is at or below the threshold
is never returned (both queries filter with a strict
`WHERE similarity_score > $threshold`). -/
theorem search_results_exceed_threshold (sim : List ℚ → List ℚ → ℚ)
    (g : SearchGraph) (uid : String) (q : List ℚ) (t : ℚ) (limit : Nat) :
    (∀ r ∈ searchContent sim g uid q t limit, t < r.2) ∧
    (∀ r ∈ searchDocuments sim g uid q t limit, t < r.2) := by
  constructor
  · intro r hr
    unfold searchContent at hr
    split at hr
    · simp at hr
    · have hr1 := (mem_sortDesc r _).mp (List.mem_of_mem_take hr)
      obtain ⟨d, hd, hsome⟩ := List.mem_filterMap.mp hr1
      split at hsome
      · simp at hsome
      · split at hsome
        · obtain rfl := Option.some.inj hsome
          rename_i ht
          simpa using ht
        · simp at hsome
  · intro r hr
    unfold searchDocuments at hr
    split at hr
    · simp at hr
    · have hr1 := (mem_sortDesc r _).mp (List.mem_of_mem_take hr)
      obtain ⟨d, hd, hsome⟩ := List.mem_filterMap.mp hr1
      split at hsome
      · simp at hsome
      · split at hsome
        · obtain rfl := Option.some.inj hsome
          rename_i ht
          simpa using ht
        · simp at hsome

/-- C5 witness: with a one-element graph and threshold 0 the single scored
document is returned, and applying the theorem to it yields 0 < its
score. -/
theorem search_results_exceed_threshold_witness :
    (0 : ℚ) < (("d1", (1 : ℚ))).2 := by
  have hq : chunkList 500 [(1 : ℚ)] = [[1]] :=
    chunkList_singleton 500 (by omega) 1
  apply (search_results_exceed_threshold dotp
      ⟨["d1"], [("u1", "d1")],
        [⟨"d1", RelType.hasContentEmbedding, 0, [1]⟩]⟩ "u1" [1] 0 5).1
  simp only [searchContent, hq, List.head?_cons, ownedDocs, chunksOf,
    List.filter, sortDesc, insertDesc, dotp]
  norm_num [List.filterMap, maxScore, dotp, sortDesc, insertDesc]

theorem mem_chunksOf (g : SearchGraph) (d : String) (e : RelType)
    (ch : List ℚ) (h : ch ∈ chunksOf g d e) :
    ∃ sc ∈ g.chunks, sc.chunk = ch := by
  unfold chunksOf at h
  obtain ⟨sc, hsc, hEq⟩ := List.mem_map.mp h
  exact ⟨sc, (List.mem_filter.mp hsc).1, hEq⟩

theorem filterMap_id_replicate_none {α : Type} (n : Nat) :
    (List.replicate n (none : Option α)).filterMap id = [] := by
  induction n with
  | zero => rfl
  | succ n ih => simp [List.replicate_succ, ih]

/-- C6 amended.  Two independent conditionals.  `search_content` compares
only the first 500-element slice of the query embedding: whenever that
compared slice's length matches no stored chunk's length the result is
`[]` without an error.  Separately, `search_similar_documents` compares
the full query embedding: whenever its length differs from every stored
chunk's length the internal cosine error is swallowed by the `except` and
the caller receives `[]`. -/
theorem never_seen_length_returns_empty (sim : List ℚ → List ℚ → ℚ)
    (g : SearchGraph) (uid : String) (q : List ℚ) (t : ℚ) (lim₁ lim₂ : Nat) :
    ((∀ qc, (chunkList 500 q).head? = some qc →
        ∀ sc ∈ g.chunks, sc.chunk.length ≠ qc.length) →
      searchContent sim g uid q t lim₁ = []) ∧
    ((∀ sc ∈ g.chunks, sc.chunk.length ≠ q.length) →
      searchSimilarDocuments sim g uid q lim₂ = []) := by
  constructor
  · intro h₁
    unfold searchContent
    split
    · rfl
    · rename_i qc hq
      have hmap : (ownedDocs g uid).filterMap (fun d =>
          match (chunksOf g d RelType.hasContentEmbedding).filter
              (fun ch => ch.length = qc.length) with
          | [] => none
          | c0 :: cs =>
            if t < maxScore sim qc c0 cs then
              some (d, maxScore sim qc c0 cs)
            else none) = [] := by
        apply List.filterMap_eq_nil.mpr
        intro d hd
        have hfil : (chunksOf g d RelType.hasContentEmbedding).filter
            (fun ch => ch.length = qc.length) = [] := by
          apply List.filter_eq_nil_iff.mpr
          intro ch hch
          obtain ⟨sc, hsc, hEq⟩ := mem_chunksOf g d _ ch hch
          simpa [hEq] using h₁ qc hq sc hsc
        rw [hfil]
      rw [hmap]
      simp [sortDesc]
  · intro h₂
    unfold searchSimilarDocuments
    have hscore : ∀ d, scoreDocSimilar sim g q d = .ok none ∨
        ∃ e, scoreDocSimilar sim g q d = .error e := by
      intro d
      unfold scoreDocSimilar
      cases hcs : chunksOf g d RelType.hasEmbedding with
      | nil => left; rfl
      | cons c0 cs =>
        right
        have hc0 : c0 ∈ chunksOf g d RelType.hasEmbedding := by
          rw [hcs]; exact List.mem_cons_self c0 cs
        obtain ⟨sc, hsc, hEq⟩ := mem_chunksOf g d _ c0 hc0
        have hne : ¬ c0.length = q.length := by
          rw [← hEq]; exact h₂ sc hsc
        exact ⟨"vectors must have equal length",
          by simp [mapExcept, gdsCosineE, hne]⟩
    have hres : ∀ ds : List String,
        mapExcept (scoreDocSimilar sim g q) ds =
            .ok (List.replicate ds.length none) ∨
        ∃ e, mapExcept (scoreDocSimilar sim g q) ds = .error e := by
      intro ds
      induction ds with
      | nil => left; rfl
      | cons d ds ih =>
        rcases hscore d with h | ⟨e, h⟩
        · rcases ih with h2 | ⟨e, h2⟩
          · left
            simp [mapExcept, h, h2, List.replicate_succ]
          · right
            exact ⟨e, by simp [mapExcept, h, h2]⟩
        · right
          exact ⟨e, by simp [mapExcept, h]⟩
    rcases hres (ownedDocs g uid) with h | ⟨e, h⟩
    · rw [h]
      simp [filterMap_id_replicate_none, sortDesc]
    · rw [h]

/-- C6 witness: a stored content chunk of length 2 and a stored
`HAS_EMBEDDING` chunk of length 3, with a query of length 1 (so the
compared slice also has length 1).  Both halves of the theorem are applied
with their own hypothesis discharged; the `search_similar_documents` half
really performs (and swallows) a failing cosine comparison, since the
graph holds a `HAS_EMBEDDING` chunk of mismatched length. -/
theorem never_seen_length_returns_empty_witness :
    searchContent dotp
        ⟨["d1"], [("u1", "d1")],
          [⟨"d1", RelType.hasContentEmbedding, 0, [1, 2]⟩,
           ⟨"d1", RelType.hasEmbedding, 0, [1, 2, 3]⟩]⟩
        "u1" [1] 0 5 = [] ∧
    searchSimilarDocuments dotp
        ⟨["d1"], [("u1", "d1")],
          [⟨"d1", RelType.hasContentEmbedding, 0, [1, 2]⟩,
           ⟨"d1", RelType.hasEmbedding, 0, [1, 2, 3]⟩]⟩
        "u1" [1] 3 = [] := by
  constructor
  · apply (never_seen_length_returns_empty dotp
        ⟨["d1"], [("u1", "d1")],
          [⟨"d1", RelType.hasContentEmbedding, 0, [1, 2]⟩,
           ⟨"d1", RelType.hasEmbedding, 0, [1, 2, 3]⟩]⟩
        "u1" [1] 0 5 3).1
    intro qc hqc sc hsc
    rw [chunkList_singleton 500 (by omega) 1] at hqc
    have hqc2 : qc = [(1 : ℚ)] := by simpa using hqc.symm
    subst hqc2
    simp only [List.mem_cons, List.not_mem_nil, or_false] at hsc
    rcases hsc with h | h
    · subst h; simp
    · subst h; simp
  · apply (never_seen_length_returns_empty dotp
        ⟨["d1"], [("u1", "d1")],
          [⟨"d1", RelType.hasContentEmbedding, 0, [1, 2]⟩,
           ⟨"d1", RelType.hasEmbedding, 0, [1, 2, 3]⟩]⟩
        "u1" [1] 0 5 3).2
    intro sc hsc
    simp only [List.mem_cons, List.not_mem_nil, or_false] at hsc
    rcases hsc with h | h
    · subst h; simp
    · subst h; simp

/-- C6 counterexample: the claim as stated fails for `search_content`.
With stored content chunks of length 500 and a query embedding of the
never-seen length 501, the compared slice (the first 500 elements) still
matches the stored chunks, and the search returns a document instead of
the empty list. -/
theorem never_seen_length_cex :
    (∀ sc ∈ (⟨["d1"], [("u1", "d1")],
        [⟨"d1", RelType.hasContentEmbedding, 0, List.replicate 500 1⟩]⟩ :
          SearchGraph).chunks,
      sc.chunk.length ≠ (List.replicate 501 (1 : ℚ)).length) ∧
    searchContent dotp
        ⟨["d1"], [("u1", "d1")],
          [⟨"d1", RelType.hasContentEmbedding, 0, List.replicate 500 1⟩]⟩
        "u1" (List.replicate 501 1) (3 / 10) 5 =
      [("d1", 500)] := by
  constructor
  · intro sc hsc
    simp only [List.mem_singleton] at hsc
    subst hsc
    simp [-List.reduceReplicate]
  · have hq : chunkList 500 (List.replicate 501 (1 : ℚ)) =
        [List.replicate 500 1, [1]] := by
      rw [chunkList_cons 500 (by omega) _ (by simp [-List.reduceReplicate])]
      rw [List.take_replicate, List.drop_replicate,
        show min 500 501 = 500 from by omega,
        show (501 : Nat) - 500 = 1 from by omega, List.replicate_one,
        chunkList_singleton 500 (by omega) 1]
    have hdot : dotp (List.replicate 500 1) (List.replicate 500 1) =
        (500 : ℚ) := by
      rw [dotp_replicate_one 500]
      norm_num
    simp only [searchContent, hq, List.head?_cons]
    simp only [-List.reduceReplicate, ownedDocs, chunksOf, List.filter,
      List.length_replicate, List.filterMap, List.map]
    simp only [-List.reduceReplicate, decide_True, decide_eq_true_eq]
    simp only [-List.reduceReplicate, maxScore, List.foldl, hdot]
    norm_num [-List.reduceReplicate, sortDesc, insertDesc]

/-- C7: `search_similar_documents` performs a cosine comparison between
vectors of different lengths.  With a stored 500-element chunk (as its own
write path produces) and the full 1536-element query embedding (the
OpenAI dimension, document_graph_store.py:38), the query passes the pair
`(chunk, query)` to `gds.similarity.cosine` with no size guard, and the
lengths differ, so the cosine call fails. -/
theorem similarity_compares_unequal_lengths :
    comparedPairsSimilar
        ⟨["d1"], [("u1", "d1")],
          [⟨"d1", RelType.hasEmbedding, 0, List.replicate 500 1⟩]⟩
        "u1" (List.replicate 1536 1) =
      [(List.replicate 500 1, List.replicate 1536 1)] ∧
    (List.replicate 500 (1 : ℚ)).length ≠
      (List.replicate 1536 (1 : ℚ)).length ∧
    gdsCosineE dotp (List.replicate 500 1) (List.replicate 1536 1) =
      .error "vectors must have equal length" := by
  refine ⟨?_, by simp [-List.reduceReplicate], ?_⟩
  · simp [-List.reduceReplicate, comparedPairsSimilar, ownedDocs, chunksOf,
      List.filter]
  · simp [-List.reduceReplicate, gdsCosineE]

/-- Graph node identities for the deletion model. -/
inductive GNode where
  | user (name : String)
  | doc (id : String)
  | emb (id : Nat)
  deriving DecidableEq, Repr

/-- A typed relationship between two nodes. -/
structure GRel where
  src : GNode
  typ : RelType
  dst : GNode
  deriving DecidableEq, Repr

/-- The graph state for the deletion model: nodes, relationships and the
`user_id` property map.  Placeholder creator/modifier users, created by
`MERGE (o:User {email: ...})` in `_create_document_node`
(document_graph_store.py:126-130), carry only an email: they have no
`user_id` entry. -/
structure DelGraph where
  nodes : List GNode
  rels : List GRel
  userIds : List (String × String)
  deriving DecidableEq, Repr

/-- The `user_id` property of a user node; `none` models
`user_id IS NULL`. -/
def userIdOf (g : DelGraph) (name : String) : Option String :=
  (g.userIds.find? (fun p => p.1 == name)).map (fun p => p.2)

/-- Whether a node is a `User` with the given `user_id`. -/
def isOwnerUser (g : DelGraph) (uid : String) : GNode → Bool
  | GNode.user nm => userIdOf g nm == some uid
  | _ => false

/-- Whether a node is a `User` with `user_id IS NULL`. -/
def isPlaceholderUser (g : DelGraph) : GNode → Bool
  | GNode.user nm => (userIdOf g nm).isNone
  | _ => false

/-- Whether a node carries the `Document` label. -/
def isDocNode : GNode → Bool
  | GNode.doc _ => true
  | _ => false

/-- Documents matched by
`MATCH (u:User {user_id: $user_id})-[:OWNS]->(d:Document)` in
`_delete_user_documents` (delete_user_documents.py:52). -/
def matchedDocs (g : DelGraph) (uid : String) : List GNode :=
  g.nodes.filter (fun n => isDocNode n &&
    g.rels.any (fun r => r.typ == RelType.owns && r.dst == n &&
      isOwnerUser g uid r.src))

/-- The relationships the query's `DELETE cr, mr, d` clause removes: the
`CREATED` and `LAST_MODIFIED` relationships into a matched document whose
source user has `user_id IS NULL` (delete_user_documents.py:58-67).  Note
the `OWNS` relationship and the embedding relationships are not among
them. -/
def authorRelsToDelete (g : DelGraph) (uid : String) : List GRel :=
  g.rels.filter (fun r =>
    (r.typ == RelType.created || r.typ == RelType.lastModified) &&
    (matchedDocs g uid).contains r.dst && isPlaceholderUser g r.src)

/-- Placeholder users targeted by the final `DELETE creator` /
`DELETE modifier` clauses: placeholders that authored a matched document
and retain no `CREATED`/`LAST_MODIFIED` relationship once the `cr`/`mr`
relationships are deleted (delete_user_documents.py:69-85). -/
def orphanUsersToDelete (g : DelGraph) (uid : String) : List GNode :=
  g.nodes.filter (fun n => isPlaceholderUser g n &&
    (authorRelsToDelete g uid).any (fun r => r.src == n) &&
    !(g.rels.any (fun r => r.src == n &&
        (r.typ == RelType.created || r.typ == RelType.lastModified) &&
        !((authorRelsToDelete g uid).contains r))))

/-- `DocumentCleaner._delete_user_documents`
(delete_user_documents.py:48-87).  The Cypher uses plain `DELETE` (not
`DETACH DELETE`), and Neo4j aborts a transaction that deletes a node while
a relationship incident to it is left undeleted; the model returns that
error in that case and otherwise removes the deleted nodes and
relationships. -/
def deleteUserDocuments (g : DelGraph) (uid : String) :
    Except String DelGraph :=
  if (matchedDocs g uid ++ orphanUsersToDelete g uid).any (fun n =>
      g.rels.any (fun r => (r.src == n || r.dst == n) &&
        !((authorRelsToDelete g uid).contains r))) then
    .error "Cannot delete node, because it still has relationships"
  else
    .ok { nodes := g.nodes.filter (fun n =>
            !((matchedDocs g uid ++ orphanUsersToDelete g uid).contains n)),
          rels := g.rels.filter (fun r =>
            !((authorRelsToDelete g uid).contains r)),
          userIds := g.userIds }

/-- Concrete deletion scenario for C4: owner `alice` (`user_id` `u1`) owns
document `d1`; placeholder user `bob` (no `user_id`) created and
last-modified `d1`; embedding-chunk node `0` is attached to `d1` by a
summary-embedding relationship. -/
def delGraphC4 : DelGraph :=
  { nodes := [GNode.user "alice", GNode.user "bob", GNode.doc "d1",
              GNode.emb 0],
    rels := [⟨GNode.user "alice", RelType.owns, GNode.doc "d1"⟩,
             ⟨GNode.user "bob", RelType.created, GNode.doc "d1"⟩,
             ⟨GNode.user "bob", RelType.lastModified, GNode.doc "d1"⟩,
             ⟨GNode.doc "d1", RelType.hasSummaryEmbedding, GNode.emb 0⟩],
    userIds := [("alice", "u1")] }

/-- C4: on the code, deleting a user's documents does not remove the
document together with its embedding chunks — the delete query's `DELETE
cr, mr, d` leaves the `OWNS` and embedding relationships undeleted (they
are not in its delete set), so the transaction aborts with a Neo4j
constraint error and the chunk node is never part of any delete set. -/
theorem delete_user_documents_fails :
    deleteUserDocuments delGraphC4 "u1" =
      .error "Cannot delete node, because it still has relationships" ∧
    (⟨GNode.user "alice", RelType.owns, GNode.doc "d1"⟩ : GRel) ∉
      authorRelsToDelete delGraphC4 "u1" ∧
    (⟨GNode.doc "d1", RelType.hasSummaryEmbedding, GNode.emb 0⟩ : GRel) ∉
      authorRelsToDelete delGraphC4 "u1" ∧
    GNode.emb 0 ∉
      matchedDocs delGraphC4 "u1" ++ orphanUsersToDelete delGraphC4 "u1" := by
  refine ⟨?_, by decide, by decide, by decide⟩
  rfl

/-- A database index as `SHOW INDEXES` reports it. -/
structure IndexDef where
  name : String
  dimensions : Nat
  similarity_function : String
  deriving DecidableEq, Repr

/-- `VectorIndexSetup.setup_vector_index` (setup_vector_index.py:27-64):
counts the indexes named `document_embeddings`; a positive count
short-circuits to `True` without reading any configuration; otherwise the
index is created with `vector.dimensions: 500` and cosine similarity and
`True` is returned.  (`False` arises only from a database exception.) -/
def setupVectorIndex (indexes : List IndexDef) : Bool × List IndexDef :=
  if 0 < (indexes.filter (fun i => i.name = "document_embeddings")).length
  then (true, indexes)
  else (true, indexes ++ [⟨"document_embeddings", 500, "cosine"⟩])

/-- C8 counterexample: an existing index named `document_embeddings` with
dimensionality 1234 and a non-cosine metric is reported as success and
left untouched — no configuration error is surfaced. -/
theorem setup_ignores_config_mismatch_cex :
    setupVectorIndex [⟨"document_embeddings", 1234, "euclidean"⟩] =
      (true, [⟨"document_embeddings", 1234, "euclidean"⟩]) ∧
    (1234 : Nat) ≠ 500 := by
  refine ⟨?_, by decide⟩
  decide

/-- C8 amended: vector-index creation short-circuits to success whenever
an index with the expected name exists, regardless of its dimensionality
or metric; a configuration mismatch is never inspected nor surfaced. -/
theorem setup_noop_whenever_name_exists (indexes : List IndexDef)
    (h : ∃ i ∈ indexes, i.name = "document_embeddings") :
    setupVectorIndex indexes = (true, indexes) := by
  obtain ⟨i, hi, hname⟩ := h
  have hmem : i ∈ indexes.filter (fun j => j.name = "document_embeddings") :=
    List.mem_filter.mpr ⟨hi, by simp [hname]⟩
  have hpos : 0 <
      (indexes.filter (fun j => j.name = "document_embeddings")).length :=
    List.length_pos.mpr (List.ne_nil_of_mem hmem)
  unfold setupVectorIndex
  rw [if_pos hpos]

/-- C8 witness: applying the amended theorem to a mismatched existing
index. -/
theorem setup_noop_whenever_name_exists_witness :
    setupVectorIndex [⟨"document_embeddings", 777, "euclidean"⟩] =
      (true, [⟨"document_embeddings", 777, "euclidean"⟩]) :=
  setup_noop_whenever_name_exists _
    ⟨⟨"document_embeddings", 777, "euclidean"⟩, by simp, rfl⟩

/-- The documents a coverage query visits: all of them, or only the ones
owned by the given user (`setup_vector_index.py:71-80`,
`verify_embeddings.py:32-77`). -/
def coverageDocs (g : SearchGraph) (uidOpt : Option String) : List String :=
  match uidOpt with
  | some uid => g.docs.filter (fun d => g.owns.contains (uid, d))
  | none => g.docs

/-- Coverage statistics `(total_documents, with_embeddings,
without_embeddings)` reported by `VectorIndexSetup.verify_embeddings` and
`EmbeddingVerifier.verify_document_embeddings`: per document the
`HAS_EMBEDDING` chunk count, then `count(d)`,
`sum(CASE WHEN count > 0 THEN 1 ELSE 0 END)` and
`sum(CASE WHEN count = 0 THEN 1 ELSE 0 END)`. -/
def coverageStats (g : SearchGraph) (uidOpt : Option String) :
    Nat × Nat × Nat :=
  (((coverageDocs g uidOpt).map
      (fun d => (chunksOf g d RelType.hasEmbedding).length)).length,
   (((coverageDocs g uidOpt).map
      (fun d => (chunksOf g d RelType.hasEmbedding).length)).filter
        (fun n => 0 < n)).length,
   (((coverageDocs g uidOpt).map
      (fun d => (chunksOf g d RelType.hasEmbedding).length)).filter
        (fun n => n = 0)).length)

theorem length_filter_partition (l : List Nat) :
    l.length = (l.filter (fun n => 0 < n)).length +
      (l.filter (fun n => n = 0)).length := by
  induction l with
  | nil => rfl
  | cons a t ih =>
    rcases Nat.eq_zero_or_pos a with ha | ha
    · subst ha
      simp only [List.filter_cons]
      norm_num [ih]
      omega
    · have h0 : ¬ a = 0 := by omega
      simp only [List.filter_cons]
      norm_num [ha, h0, ih]
      omega

/-- C10.  For every coverage-statistics query, with or without a user
filter, the reported counts partition the documents: `total_documents`
equals `with_embeddings` plus `without_embeddings` (each count is a
natural number, hence non-negative). -/
theorem coverage_counts_partition (g : SearchGraph)
    (uidOpt : Option String) :
    (coverageStats g uidOpt).1 =
      (coverageStats g uidOpt).2.1 + (coverageStats g uidOpt).2.2 := by
  exact length_filter_partition ((coverageDocs g uidOpt).map
    (fun d => (chunksOf g d RelType.hasEmbedding).length))

end MiPal
